import Mathlib

/-!
Verification development for the `httpfromtcp` HTTP/1.1 engine.

The Go sources are shallowly embedded over `List Char` byte sequences:
the header table (`internal/headers/headers.go`), the incremental request
parser (`internal/request/request.go`), the response writers (the variant
without a trailers state from `internal/response/writer.go` and the variant
with a trailers state from the related snapshot), and the server shutdown
logic (`internal/server/server.go`).  Go `string`/`[]byte` values become
`List Char`, Go maps of headers become association lists with unique keys,
fallible functions return `Except String`, and the byte sink of a response
writer is modelled as the list of bytes written so far.
-/

/-- ASCII whitespace recognised by Go `strings.TrimSpace` (the inputs of this
program are ASCII): space, tab, newline, vertical tab, form feed, carriage
return. -/
def goIsSpace (c : Char) : Bool :=
  c = ' ' || c = '\t' || c = '\n' || c = Char.ofNat 11 || c = Char.ofNat 12 || c = '\r'

/-- ASCII lower-casing of one character, as Go `strings.ToLower` acts on
ASCII input. -/
def lowerChar (c : Char) : Char :=
  if 'A' ≤ c ∧ c ≤ 'Z' then Char.ofNat (c.toNat + 32) else c

/-- Uppercase ASCII letter test, the per-character check of the method loop in
`requestLineFromString`. -/
def isUpperAZ (c : Char) : Bool :=
  'A' ≤ c && c ≤ 'Z'

/-- The punctuation characters of the header token character class in
`headers.go` (codes 39 and 96 are the apostrophe and the backquote). -/
def tokenPunct : List Char :=
  ['!', '#', '$', '%', '&', Char.ofNat 39, '*', '+', '.', '-',
   Char.ofNat 94, '_', Char.ofNat 96, '|', Char.ofNat 126]

/-- Membership in the header token character class
`[a-zA-Z0-9!#$%&'*+.\-^_`|~]` of `headers.go`. -/
def isTokenChar (c : Char) : Bool :=
  ('a' ≤ c && c ≤ 'z') || ('A' ≤ c && c ≤ 'Z') || ('0' ≤ c && c ≤ '9')
    || tokenPunct.contains c

/-- Index of the first occurrence of `"\r\n"`, as `strings.Index(s, crlf)`:
`none` when no CRLF occurs. -/
def crlfIdx : List Char → Option Nat
  | [] => none
  | c :: rest =>
    if c = '\r' ∧ rest.head? = some '\n' then some 0
    else (crlfIdx rest).map (· + 1)

/-- Whether the sequence contains the two-byte substring `" :"`, as
`strings.Contains(headerLine, " :")`. -/
def containsSpaceColon : List Char → Bool
  | ' ' :: ':' :: _ => true
  | _ :: rest => containsSpaceColon rest
  | [] => false

/-- Split at the first colon, as `strings.SplitN(line, ":", 2)`: `none` when
no colon occurs (one part), otherwise the part before and the part after the
first colon. -/
def splitFirstColon : List Char → Option (List Char × List Char)
  | [] => none
  | c :: rest =>
    if c = ':' then some ([], rest)
    else (splitFirstColon rest).map (fun p => (c :: p.1, p.2))

/-- Split on every occurrence of a one-character separator, preserving empty
fields, as Go `strings.Split` with a one-character separator. -/
def splitChar (sep : Char) : List Char → List (List Char)
  | [] => [[]]
  | c :: rest =>
    match splitChar sep rest with
    | [] => [[]]
    | g :: gs => if c = sep then [] :: g :: gs else (c :: g) :: gs

/-- Concatenate fields back with the separator between them (used to relate
`splitChar` to its input). -/
def joinSep (sep : Char) : List (List Char) → List Char
  | [] => []
  | [g] => g
  | g :: gs => g ++ sep :: joinSep sep gs

/-- Drop leading Go whitespace. -/
def trimLeft (l : List Char) : List Char := l.dropWhile goIsSpace

/-- Drop trailing Go whitespace. -/
def trimRight (l : List Char) : List Char := (l.reverse.dropWhile goIsSpace).reverse

/-- Go `strings.TrimSpace` on ASCII input. -/
def trimSpace (l : List Char) : List Char := trimRight (trimLeft l)

/-- Value of a decimal digit. -/
def digitVal (c : Char) : Option Nat :=
  if '0' ≤ c ∧ c ≤ '9' then some (c.toNat - 48) else none

/-- Accumulate the value of a digit string; `none` on a non-digit. -/
def digitsValAux : Nat → List Char → Option Nat
  | acc, [] => some acc
  | acc, c :: rest =>
    match digitVal c with
    | none => none
    | some d => digitsValAux (acc * 10 + d) rest

/-- Value of a non-empty decimal digit string; `none` when empty or on a
non-digit. -/
def digitsVal : List Char → Option Nat
  | [] => none
  | l => digitsValAux 0 l

/-- Go `strconv.Atoi` on ASCII input: an optional sign followed by a
non-empty run of decimal digits; `none` on anything else. -/
def atoi? : List Char → Option Int
  | '-' :: rest => (digitsVal rest).map (fun n => -(n : Int))
  | '+' :: rest => (digitsVal rest).map (fun n => (n : Int))
  | s => (digitsVal s).map (fun n => (n : Int))

/-- The header table: an association list from (lower-cased) names to values,
keys unique, standing for the Go `map[string]string`. -/
abbrev HeadersT := List (List Char × List Char)

/-- Case-sensitive lookup in the table (keys are stored lower-cased). -/
def hdrGet? : HeadersT → List Char → Option (List Char)
  | [], _ => none
  | (k, v) :: rest, key => if k = key then some v else hdrGet? rest key

/-- Insert a (pre-normalised) key: when the key is present the values fold as
`existing ++ ", " ++ new`, otherwise the pair is appended.  This is the map
update of `Headers.Set` and of the insertion branch of `Headers.Parse`. -/
def hdrSetRaw : HeadersT → List Char → List Char → HeadersT
  | [], key, value => [(key, value)]
  | (k, v) :: rest, key, value =>
    if k = key then (k, v ++ (", ").data ++ value) :: rest
    else (k, v) :: hdrSetRaw rest key value

/-- `Headers.Set` of the headers package: lower-case the name, then insert
with comma folding. -/
def headersSet (h : HeadersT) (key value : List Char) : HeadersT :=
  hdrSetRaw h (key.map lowerChar) value

/-- `Headers.Parse` of `internal/headers/headers.go`: consume at most one
header line (or the terminating blank line) from the front of `data`,
returning the updated table, the number of bytes consumed, and whether the
blank line ending the header section was reached. -/
def headersParse (h : HeadersT) (data : List Char) :
    Except String (HeadersT × Nat × Bool) :=
  match crlfIdx data with
  | none => .ok (h, 0, false)
  | some idx =>
    if idx = 0 then .ok (h, 2, true)
    else
      let headerLine := data.take idx
      if containsSpaceColon headerLine then
        .error "invalid header format: spaces in key"
      else
        match splitFirstColon headerLine with
        | none => .error "invalid header format"
        | some (k0, v0) =>
          let key := trimSpace k0
          let value := trimSpace v0
          if key.all isTokenChar then
            .ok (hdrSetRaw h (key.map lowerChar) value, idx + 2, false)
          else
            .error "invalid header key"

/-- `Headers.ParseAll` driven with fuel: repeatedly `headersParse` until the
blank line, accumulating the consumed count.  The Go original loops without
fuel and diverges on input lacking the terminating blank line; the fuel-out
case returns an error instead and is never reached on complete header
sections (each productive step consumes at least two bytes). -/
def headersParseAllFuel : Nat → HeadersT → List Char → Except String (HeadersT × Nat)
  | 0, _, _ => .error "incomplete header section"
  | fuel + 1, h, data =>
    match headersParse h data with
    | .error e => .error e
    | .ok (h', n, true) => .ok (h', n)
    | .ok (h', n, false) =>
      if n = 0 then .error "incomplete header section"
      else
        match headersParseAllFuel fuel h' (data.drop n) with
        | .error e => .error e
        | .ok (h'', m) => .ok (h'', n + m)

/-- `Headers.ParseAll`: parse a complete header section. -/
def headersParseAll (h : HeadersT) (data : List Char) : Except String (HeadersT × Nat) :=
  headersParseAllFuel (data.length + 1) h data

/-- The parsed request line of `internal/request/request.go`. -/
structure RequestLine where
  httpVersion : List Char
  requestTarget : List Char
  method : List Char
deriving DecidableEq, Repr

/-- The parser states of `internal/request/request.go`, in declaration
(iota) order. -/
inductive RequestState where
  | initialized
  | parsingHeaders
  | parsingBody
  | done
deriving DecidableEq, Repr

/-- Numeric value of a parser state (its iota value), used to state that
transitions never move backward. -/
def RequestState.idx : RequestState → Nat
  | .initialized => 0
  | .parsingHeaders => 1
  | .parsingBody => 2
  | .done => 3

/-- The request being parsed. -/
structure Request where
  requestLine : RequestLine
  headers : HeadersT
  state : RequestState
  body : List Char
deriving DecidableEq, Repr

/-- The zero-valued request `RequestFromReader` starts from. -/
def initialRequest : Request :=
  { requestLine := { httpVersion := [], requestTarget := [], method := [] },
    headers := [],
    state := .initialized,
    body := [] }

/-- `requestLineFromString`: split on single spaces into exactly three
tokens, check every method character is an uppercase ASCII letter, and check
the third token splits on `/` into `HTTP` and `1.1`. -/
def requestLineFromString (str : List Char) : Except String RequestLine :=
  match splitChar ' ' str with
  | [method, target, third] =>
    if method.all isUpperAZ then
      match splitChar '/' third with
      | [httpPart, version] =>
        if httpPart = ("HTTP").data then
          if version = ("1.1").data then
            .ok { httpVersion := version, requestTarget := target, method := method }
          else .error "unrecognized HTTP-version"
        else .error "unrecognized HTTP-version"
      | _ => .error "malformed start-line"
    else .error "invalid method"
  | _ => .error "poorly formatted request-line"

/-- `parseRequestLine`: look for the first CRLF; absent means more data is
needed (`none`); otherwise parse the line before it and report the consumed
count including the CRLF. -/
def parseRequestLine (data : List Char) :
    Except String (Option (RequestLine × Nat)) :=
  match crlfIdx data with
  | none => .ok none
  | some idx =>
    match requestLineFromString (data.take idx) with
    | .error e => .error e
    | .ok rl => .ok (some (rl, idx + 2))

/-- The key under which the parser looks up the declared body length. -/
def contentLengthKey : List Char := ("content-length").data

/-- `Request.parseSingle`: one parsing step in the current state, returning
the updated request and the number of bytes consumed. -/
def parseSingle (r : Request) (data : List Char) : Except String (Request × Nat) :=
  match r.state with
  | .initialized =>
    match parseRequestLine data with
    | .error e => .error e
    | .ok none => .ok (r, 0)
    | .ok (some (rl, n)) =>
      .ok ({ r with requestLine := rl, state := .parsingHeaders }, n)
  | .parsingHeaders =>
    match headersParse r.headers data with
    | .error e => .error e
    | .ok (h', n, dne) =>
      .ok ({ r with
             headers := h',
             state := if dne then .parsingBody else .parsingHeaders }, n)
  | .parsingBody =>
    match hdrGet? r.headers contentLengthKey with
    | none => .ok ({ r with state := .done }, data.length)
    | some clStr =>
      let body' := r.body ++ data
      match atoi? clStr with
      | none => .error "invalid content-length header"
      | some cl =>
        if (body'.length : Int) > cl then
          .error "error: body length greater than Content-Length"
        else if (body'.length : Int) = cl then
          .ok ({ r with body := body', state := .done }, data.length)
        else
          .ok ({ r with body := body' }, data.length)
  | .done => .error "error: trying to read data in a done state"

/-- `Request.parse` driven with fuel: repeatedly `parseSingle` while progress
is made and the state is not `done`, accumulating the consumed count.  Fuel
`data.length + 1` always suffices since every continuing step consumes at
least one byte; the fuel-out case mirrors a step making no progress. -/
def parseFuel : Nat → Request → List Char → Except String (Request × Nat)
  | 0, r, _ => .ok (r, 0)
  | fuel + 1, r, data =>
    if r.state = .done then .ok (r, 0)
    else
      match parseSingle r data with
      | .error e => .error e
      | .ok (r', n) =>
        if n = 0 then .ok (r', 0)
        else
          match parseFuel fuel r' (data.drop n) with
          | .error e => .error e
          | .ok (r'', m) => .ok (r'', n + m)

/-- `Request.parse`: make as much progress as possible against the buffer. -/
def parse (r : Request) (data : List Char) : Except String (Request × Nat) :=
  parseFuel (data.length + 1) r data

/-- `RequestFromReader` over an abstract byte source delivering the given
fragments and then end-of-input: keep the unconsumed remainder at the front
of the buffer, append the next fragment, parse, and repeat until the state is
`done`; end-of-input before `done` is the incomplete-request error. -/
def feedChunks (r : Request) (rest : List Char) :
    List (List Char) → Except String Request
  | [] => if r.state = .done then .ok r else .error "incomplete request"
  | c :: cs =>
    if r.state = .done then .ok r
    else
      match parse r (rest ++ c) with
      | .error e => .error e
      | .ok (r', n) => feedChunks r' ((rest ++ c).drop n) cs

/-- The server state of `internal/server/server.go`: the atomic closed flag,
and whether the listening socket has been closed (the effect of
`net.Listener.Close`). -/
structure Server where
  closed : Bool
  listenerClosed : Bool
deriving DecidableEq, Repr

/-- `net.Listener.Close` as a state change on the listener: the first close
succeeds, closing an already-closed listener reports an error. -/
def listenerClose (s : Server) : Server × Option String :=
  if s.listenerClosed then (s, some "use of closed network connection")
  else ({ s with listenerClosed := true }, none)

/-- `Server.Close` of `internal/server/server.go`: atomically swap the closed
flag to true; when it was already set, return success without touching the
listener, otherwise close the listener. -/
def Server.Close (s : Server) : Server × Option String :=
  if s.closed then (s, none)
  else listenerClose { s with closed := true }

/-- Hexadecimal digit character (lowercase), as `fmt.Sprintf("%x", n)`. -/
def hexDigit (n : Nat) : Char :=
  if n < 10 then Char.ofNat (48 + n) else Char.ofNat (87 + n)

/-- Accumulate hexadecimal digits of `n` (most significant first). -/
def natToHexAux (n : Nat) (acc : List Char) : List Char :=
  if h : n = 0 then acc
  else natToHexAux (n / 16) (hexDigit (n % 16) :: acc)
termination_by n
decreasing_by exact Nat.div_lt_self (Nat.pos_of_ne_zero h) (by norm_num)

/-- Lowercase hexadecimal rendering of a natural number, as
`fmt.Sprintf("%x", n)`. -/
def natToHex (n : Nat) : List Char :=
  if n = 0 then ['0'] else natToHexAux n []

/-- Accumulate decimal digits of `n` (most significant first). -/
def natToDecAux (n : Nat) (acc : List Char) : List Char :=
  if h : n = 0 then acc
  else natToDecAux (n / 10) (Char.ofNat (48 + n % 10) :: acc)
termination_by n
decreasing_by exact Nat.div_lt_self (Nat.pos_of_ne_zero h) (by norm_num)

/-- Decimal rendering of a natural number, as `fmt.Sprintf("%d", n)`. -/
def natToDec (n : Nat) : List Char :=
  if n = 0 then ['0'] else natToDecAux n []

/-- Modelled from the spec: `getStatusLine` is called by
`Writer.WriteStatusLine` but its definition is not among the provided source
files.  Per the spec it serializes `"HTTP/1.1 <code> <reason>\r\n"` with the
canonical reason phrases for 200, 400 and 500 and the bare numeric code for
unknown values; this agrees with the package-level `WriteStatusLine` present
in `internal/response/writer.go`. -/
def getStatusLine (code : Nat) : List Char :=
  if code = 200 then ("HTTP/1.1 200 OK\r\n").data
  else if code = 400 then ("HTTP/1.1 400 Bad Request\r\n").data
  else if code = 500 then ("HTTP/1.1 500 Internal Server Error\r\n").data
  else ("HTTP/1.1 ").data ++ natToDec code ++ ("\r\n").data

/-- Serialize a header table as `WriteHeaders` does: every entry as
`"<name>: <value>\r\n"` in iteration order, then the terminating blank
line. -/
def renderHeaders (h : HeadersT) : List Char :=
  (h.foldl (fun acc kv => acc ++ kv.1 ++ (": ").data ++ kv.2 ++ ("\r\n").data) [])
    ++ ("\r\n").data

namespace ResponsePlain

/-- Writer states of `internal/response/writer.go` (the variant without a
trailers state), in declaration order. -/
inductive WriterState where
  | statusLine
  | headers
  | body
deriving DecidableEq, Repr

/-- Iota value of a writer state, used in sequencing-error messages. -/
def WriterState.idx : WriterState → Nat
  | .statusLine => 0
  | .headers => 1
  | .body => 2

/-- The response writer: its state and the bytes written to the sink so
far. -/
structure Writer where
  writerState : WriterState
  out : List Char
deriving DecidableEq, Repr

/-- `NewWriter`: starts in the status-line state with nothing written. -/
def NewWriter : Writer := { writerState := .statusLine, out := [] }

/-- `Writer.WriteStatusLine`. -/
def Writer.WriteStatusLine (w : Writer) (code : Nat) : Except String Writer :=
  if w.writerState ≠ .statusLine then
    .error ("cannot write status line in state " ++ String.mk (natToDec w.writerState.idx))
  else
    .ok { writerState := .headers, out := w.out ++ getStatusLine code }

/-- `Writer.WriteHeaders`. -/
def Writer.WriteHeaders (w : Writer) (h : HeadersT) : Except String Writer :=
  if w.writerState ≠ .headers then
    .error ("cannot write headers in state " ++ String.mk (natToDec w.writerState.idx))
  else
    .ok { writerState := .body, out := w.out ++ renderHeaders h }

/-- `Writer.WriteBody` of this variant: writes the bytes verbatim and leaves
the state unchanged. -/
def Writer.WriteBody (w : Writer) (p : List Char) : Except String (Writer × Nat) :=
  if w.writerState ≠ .body then
    .error ("cannot write body in state " ++ String.mk (natToDec w.writerState.idx))
  else
    .ok ({ w with out := w.out ++ p }, p.length)

/-- `Writer.WriteChunkedBody`: `"<hex length>\r\n<bytes>\r\n"`, state
unchanged. -/
def Writer.WriteChunkedBody (w : Writer) (p : List Char) : Except String (Writer × Nat) :=
  if w.writerState ≠ .body then
    .error ("cannot write body in state " ++ String.mk (natToDec w.writerState.idx))
  else
    .ok ({ w with out := w.out ++ natToHex p.length ++ ("\r\n").data ++ p ++ ("\r\n").data },
         p.length)

/-- `Writer.WriteChunkedBodyDone` of this variant: writes `"0\r\n\r\n"` and
leaves the state unchanged. -/
def Writer.WriteChunkedBodyDone (w : Writer) : Except String (Writer × Nat) :=
  if w.writerState ≠ .body then
    .error ("cannot write body in state " ++ String.mk (natToDec w.writerState.idx))
  else
    .ok ({ w with out := w.out ++ ("0\r\n\r\n").data }, 5)

end ResponsePlain

namespace ResponseTrailers

/-- Writer states of the related response-writer snapshot with a trailers
state (the convention the spec adopts), in declaration order. -/
inductive WriterState where
  | statusLine
  | headers
  | body
  | trailers
deriving DecidableEq, Repr

/-- Iota value of a writer state, used in sequencing-error messages. -/
def WriterState.idx : WriterState → Nat
  | .statusLine => 0
  | .headers => 1
  | .body => 2
  | .trailers => 3

/-- The response writer: its state and the bytes written to the sink so
far. -/
structure Writer where
  writerState : WriterState
  out : List Char
deriving DecidableEq, Repr

/-- `NewWriter`: starts in the status-line state with nothing written. -/
def NewWriter : Writer := { writerState := .statusLine, out := [] }

/-- `Writer.WriteStatusLine`. -/
def Writer.WriteStatusLine (w : Writer) (code : Nat) : Except String Writer :=
  if w.writerState ≠ .statusLine then
    .error ("cannot write status line in state " ++ String.mk (natToDec w.writerState.idx))
  else
    .ok { writerState := .headers, out := w.out ++ getStatusLine code }

/-- `Writer.WriteHeaders`. -/
def Writer.WriteHeaders (w : Writer) (h : HeadersT) : Except String Writer :=
  if w.writerState ≠ .headers then
    .error ("cannot write headers in state " ++ String.mk (natToDec w.writerState.idx))
  else
    .ok { writerState := .body, out := w.out ++ renderHeaders h }

/-- `Writer.WriteBody` of this variant: writes the bytes verbatim and
advances to the trailers state, so a second body write fails. -/
def Writer.WriteBody (w : Writer) (p : List Char) : Except String (Writer × Nat) :=
  if w.writerState ≠ .body then
    .error ("cannot write body in state " ++ String.mk (natToDec w.writerState.idx))
  else
    .ok ({ writerState := .trailers, out := w.out ++ p }, p.length)

/-- `Writer.WriteChunkedBody`: `"<hex length>\r\n<bytes>\r\n"`, state
unchanged so chunks can accumulate. -/
def Writer.WriteChunkedBody (w : Writer) (p : List Char) : Except String (Writer × Nat) :=
  if w.writerState ≠ .body then
    .error ("cannot write body in state " ++ String.mk (natToDec w.writerState.idx))
  else
    .ok ({ w with out := w.out ++ natToHex p.length ++ ("\r\n").data ++ p ++ ("\r\n").data },
         p.length)

/-- `Writer.WriteChunkedBodyDone` of this variant: writes the terminating
`"0\r\n"` marker and advances to the trailers state. -/
def Writer.WriteChunkedBodyDone (w : Writer) : Except String (Writer × Nat) :=
  if w.writerState ≠ .body then
    .error ("cannot write body in state " ++ String.mk (natToDec w.writerState.idx))
  else
    .ok ({ writerState := .trailers, out := w.out ++ ("0\r\n").data }, 3)

/-- `Writer.WriteTrailers`: serialize the trailer table like headers,
including the final blank line; the state stays `trailers`. -/
def Writer.WriteTrailers (w : Writer) (h : HeadersT) : Except String Writer :=
  if w.writerState ≠ .trailers then
    .error ("cannot write trailers in state " ++ String.mk (natToDec w.writerState.idx))
  else
    .ok { w with out := w.out ++ renderHeaders h }

end ResponseTrailers

/-! ## Unfolding and branch lemmas -/

theorem splitChar_cons (sep c : Char) (rest : List Char) :
    splitChar sep (c :: rest) =
      match splitChar sep rest with
      | [] => [[]]
      | g :: gs => if c = sep then [] :: g :: gs else (c :: g) :: gs := rfl

theorem crlfIdx_cons (c : Char) (rest : List Char) :
    crlfIdx (c :: rest) =
      if c = '\r' ∧ rest.head? = some '\n' then some 0
      else (crlfIdx rest).map (· + 1) := rfl

/-- `parseSingle` in the `initialized` state parses the request line. -/
theorem parseSingle_initialized (r : Request) (data : List Char)
    (hs : r.state = .initialized) :
    parseSingle r data =
      match parseRequestLine data with
      | .error e => .error e
      | .ok none => .ok (r, 0)
      | .ok (some (rl, n)) =>
        .ok ({ r with requestLine := rl, state := .parsingHeaders }, n) := by
  obtain ⟨rl₀, h₀, st, b₀⟩ := r
  have hs' : st = .initialized := hs
  subst hs'
  rfl

/-- `parseSingle` in the `parsingHeaders` state parses one header line. -/
theorem parseSingle_parsingHeaders (r : Request) (data : List Char)
    (hs : r.state = .parsingHeaders) :
    parseSingle r data =
      match headersParse r.headers data with
      | .error e => .error e
      | .ok (h', n, dne) =>
        .ok ({ r with
               headers := h',
               state := if dne then .parsingBody else .parsingHeaders }, n) := by
  obtain ⟨rl₀, h₀, st, b₀⟩ := r
  have hs' : st = .parsingHeaders := hs
  subst hs'
  rfl

/-- `parseSingle` in the `parsingBody` state: the full body-handling
program. -/
theorem parseSingle_parsingBody (r : Request) (data : List Char)
    (hs : r.state = .parsingBody) :
    parseSingle r data =
      match hdrGet? r.headers contentLengthKey with
      | none => .ok ({ r with state := .done }, data.length)
      | some clStr =>
        match atoi? clStr with
        | none => .error "invalid content-length header"
        | some cl =>
          if ((r.body ++ data).length : Int) > cl then
            .error "error: body length greater than Content-Length"
          else if ((r.body ++ data).length : Int) = cl then
            .ok ({ r with body := r.body ++ data, state := .done }, data.length)
          else
            .ok ({ r with body := r.body ++ data }, data.length) := by
  obtain ⟨rl₀, h₀, st, b₀⟩ := r
  have hs' : st = .parsingBody := hs
  subst hs'
  rfl

/-- `parseSingle` in the `parsingBody` state without a content-length header
moves to `done` consuming everything. -/
theorem parseSingle_body_noCL (r : Request) (data : List Char)
    (hs : r.state = .parsingBody)
    (hcl : hdrGet? r.headers contentLengthKey = none) :
    parseSingle r data = .ok ({ r with state := .done }, data.length) := by
  rw [parseSingle_parsingBody r data hs, hcl]

/-- `parseSingle` in the `parsingBody` state with a content-length header:
reduce away the header lookup. -/
theorem parseSingle_body_some (r : Request) (data clStr : List Char)
    (hs : r.state = .parsingBody)
    (hcl : hdrGet? r.headers contentLengthKey = some clStr) :
    parseSingle r data =
      match atoi? clStr with
      | none => .error "invalid content-length header"
      | some cl =>
        if ((r.body ++ data).length : Int) > cl then
          .error "error: body length greater than Content-Length"
        else if ((r.body ++ data).length : Int) = cl then
          .ok ({ r with body := r.body ++ data, state := .done }, data.length)
        else
          .ok ({ r with body := r.body ++ data }, data.length) := by
  rw [parseSingle_parsingBody r data hs, hcl]

/-- `parseSingle` in the `parsingBody` state with an unparsable
content-length value fails. -/
theorem parseSingle_body_badCL (r : Request) (data clStr : List Char)
    (hs : r.state = .parsingBody)
    (hcl : hdrGet? r.headers contentLengthKey = some clStr)
    (ha : atoi? clStr = none) :
    parseSingle r data = .error "invalid content-length header" := by
  rw [parseSingle_body_some r data clStr hs hcl, ha]

/-- `parseSingle` in the `parsingBody` state with a numeric content-length:
append everything, fail on overflow, finish on exact fit. -/
theorem parseSingle_body_CL (r : Request) (data clStr : List Char) (cl : Int)
    (hs : r.state = .parsingBody)
    (hcl : hdrGet? r.headers contentLengthKey = some clStr)
    (ha : atoi? clStr = some cl) :
    parseSingle r data =
      if ((r.body ++ data).length : Int) > cl then
        .error "error: body length greater than Content-Length"
      else if ((r.body ++ data).length : Int) = cl then
        .ok ({ r with body := r.body ++ data, state := .done }, data.length)
      else
        .ok ({ r with body := r.body ++ data }, data.length) := by
  rw [parseSingle_body_some r data clStr hs hcl, ha]

/-- `parseSingle` in the `done` state always fails. -/
theorem parseSingle_done (r : Request) (data : List Char) (hs : r.state = .done) :
    parseSingle r data = .error "error: trying to read data in a done state" := by
  obtain ⟨rl₀, h₀, st, b₀⟩ := r
  have hs' : st = .done := hs
  subst hs'
  rfl

/-- Looking up the key just inserted: the value folds with `", "` when the
key was present, and is stored as given otherwise. -/
theorem hdrSetRaw_get (h : HeadersT) (k v : List Char) :
    hdrGet? (hdrSetRaw h k v) k =
      some (match hdrGet? h k with
            | some old => old ++ (", ").data ++ v
            | none => v) := by
  induction h with
  | nil => simp [hdrSetRaw, hdrGet?]
  | cons kv rest ih =>
    obtain ⟨k', v'⟩ := kv
    by_cases hk : k' = k
    · subst hk
      simp [hdrSetRaw, hdrGet?]
    · simp [hdrSetRaw, hdrGet?, hk, ih]

/-- `splitChar` never returns an empty list of fields. -/
theorem splitChar_ne_nil (sep : Char) (l : List Char) : splitChar sep l ≠ [] := by
  cases l with
  | nil => simp [splitChar]
  | cons c rest =>
    rw [splitChar_cons]
    cases splitChar sep rest with
    | nil => simp
    | cons g gs =>
      by_cases hc : c = sep <;> simp [hc]

/-- Prepending a non-separator character to the first field. -/
theorem joinSep_cons_cons (sep c : Char) (g : List Char) (gs : List (List Char)) :
    joinSep sep ((c :: g) :: gs) = c :: joinSep sep (g :: gs) := by
  cases gs <;> rfl

/-- Joining the fields of `splitChar` with the separator restores the
input. -/
theorem joinSep_splitChar (sep : Char) (l : List Char) :
    joinSep sep (splitChar sep l) = l := by
  induction l with
  | nil => rfl
  | cons c rest ih =>
    rcases hs : splitChar sep rest with _ | ⟨g, gs⟩
    · exact absurd hs (splitChar_ne_nil sep rest)
    · rw [hs] at ih
      rw [splitChar_cons, hs]
      show joinSep sep (if c = sep then [] :: g :: gs else (c :: g) :: gs) = c :: rest
      by_cases hc : c = sep
      · rw [if_pos hc]
        show sep :: joinSep sep (g :: gs) = c :: rest
        rw [ih, hc]
      · rw [if_neg hc]
        rw [joinSep_cons_cons, ih]

/-- A found CRLF needs at least two bytes after its index. -/
theorem crlfIdx_le (data : List Char) (i : Nat) (h : crlfIdx data = some i) :
    i + 2 ≤ data.length := by
  induction data generalizing i with
  | nil => simp [crlfIdx] at h
  | cons c rest ih =>
    rw [crlfIdx_cons] at h
    by_cases hc : c = '\r' ∧ rest.head? = some '\n'
    · rw [if_pos hc] at h
      obtain ⟨-, hh⟩ := hc
      cases rest with
      | nil => simp at hh
      | cons d ds =>
        simp at h
        simp [← h]
    · rw [if_neg hc] at h
      cases hr : crlfIdx rest with
      | none => rw [hr] at h; simp at h
      | some j =>
        rw [hr] at h
        simp at h
        have := ih j hr
        simp
        omega

/-- The first CRLF is unchanged by appending more data after it. -/
theorem crlfIdx_append_of_some (d e : List Char) (i : Nat) (h : crlfIdx d = some i) :
    crlfIdx (d ++ e) = some i := by
  induction d generalizing i with
  | nil => simp [crlfIdx] at h
  | cons c rest ih =>
    rw [crlfIdx_cons] at h
    have hstep : (c :: rest) ++ e = c :: (rest ++ e) := rfl
    rw [hstep, crlfIdx_cons]
    by_cases hc : c = '\r' ∧ rest.head? = some '\n'
    · rw [if_pos hc] at h
      obtain ⟨hcr, hh⟩ := hc
      cases rest with
      | nil => simp at hh
      | cons d' ds =>
        have hc2 : c = '\r' ∧ ((d' :: ds) ++ e).head? = some '\n' := by
          constructor
          · exact hcr
          · simp at hh
            simp [hh]
        rw [if_pos hc2]
        exact h
    · rw [if_neg hc] at h
      cases hr : crlfIdx rest with
      | none => rw [hr] at h; simp at h
      | some j =>
        rw [hr] at h
        have hc2 : ¬(c = '\r' ∧ (rest ++ e).head? = some '\n') := by
          intro ⟨hcr, hh⟩
          cases rest with
          | nil => simp [crlfIdx] at hr
          | cons d' ds =>
            simp at hh
            exact hc ⟨hcr, by simp [hh]⟩
        rw [if_neg hc2, ih j hr]
        exact h

/-- A CRLF appended after CRLF-free data is found exactly at the data's
length. -/
theorem crlfIdx_append_crlf (l t : List Char) (h : crlfIdx l = none) :
    crlfIdx (l ++ '\r' :: '\n' :: t) = some l.length := by
  induction l with
  | nil => simp [crlfIdx]
  | cons c rest ih =>
    rw [crlfIdx_cons] at h
    by_cases hc : c = '\r' ∧ rest.head? = some '\n'
    · rw [if_pos hc] at h
      exact absurd h (by simp)
    · rw [if_neg hc] at h
      have hrest : crlfIdx rest = none := by
        cases hr : crlfIdx rest with
        | none => rfl
        | some i => rw [hr] at h; simp at h
      have hstep : (c :: rest) ++ '\r' :: '\n' :: t = c :: (rest ++ '\r' :: '\n' :: t) := rfl
      rw [hstep, crlfIdx_cons]
      have hc2 : ¬(c = '\r' ∧ (rest ++ '\r' :: '\n' :: t).head? = some '\n') := by
        intro ⟨hcr, hh⟩
        cases rest with
        | nil => simp at hh
        | cons d ds =>
          simp at hh
          exact hc ⟨hcr, by simp [hh]⟩
      rw [if_neg hc2, ih hrest]
      simp

theorem headersParse_none (h : HeadersT) (data : List Char)
    (hc : crlfIdx data = none) : headersParse h data = .ok (h, 0, false) := by
  simp only [headersParse]
  rw [hc]

theorem headersParse_some (h : HeadersT) (data : List Char) (i : Nat)
    (hc : crlfIdx data = some i) :
    headersParse h data =
      (if i = 0 then .ok (h, 2, true)
       else
         if containsSpaceColon (data.take i) then
           .error "invalid header format: spaces in key"
         else
           match splitFirstColon (data.take i) with
           | none => .error "invalid header format"
           | some (k0, v0) =>
             if (trimSpace k0).all isTokenChar then
               .ok (hdrSetRaw h ((trimSpace k0).map lowerChar) (trimSpace v0),
                    i + 2, false)
             else
               .error "invalid header key") := by
  simp only [headersParse]
  rw [hc]

theorem parseRequestLine_none (data : List Char) (hc : crlfIdx data = none) :
    parseRequestLine data = .ok none := by
  simp only [parseRequestLine]
  rw [hc]

theorem parseRequestLine_some (data : List Char) (i : Nat)
    (hc : crlfIdx data = some i) :
    parseRequestLine data =
      (match requestLineFromString (data.take i) with
       | .error e => .error e
       | .ok rl => .ok (some (rl, i + 2))) := by
  simp only [parseRequestLine]
  rw [hc]

/-- The consumed count of a successful `headersParse` step on data whose
first CRLF sits at index `i` is always `i + 2`. -/
theorem headersParse_n (h : HeadersT) (data : List Char) (i : Nat)
    (h' : HeadersT) (n : Nat) (dne : Bool) (hc : crlfIdx data = some i)
    (hp : headersParse h data = .ok (h', n, dne)) : n = i + 2 := by
  rw [headersParse_some h data i hc] at hp
  by_cases hi : i = 0
  · rw [if_pos hi] at hp
    simp at hp
    omega
  · rw [if_neg hi] at hp
    split at hp
    · exact absurd hp (by simp)
    · rcases hsp : splitFirstColon (data.take i) with _ | ⟨k0, v0⟩ <;> rw [hsp] at hp
      · exact absurd hp (by simp)
      · simp at hp
        split at hp
        · simp at hp
          omega
        · exact absurd hp (by simp)

/-- A successful `parseSingle` never consumes more than is available. -/
theorem parseSingle_le (r : Request) (data : List Char) (r' : Request) (n : Nat)
    (h : parseSingle r data = .ok (r', n)) : n ≤ data.length := by
  cases hst : r.state with
  | initialized =>
    rw [parseSingle_initialized r data hst] at h
    cases hc : crlfIdx data with
    | none =>
      rw [parseRequestLine_none data hc] at h
      simp at h
      omega
    | some i =>
      rw [parseRequestLine_some data i hc] at h
      rcases hrl : requestLineFromString (data.take i) with e | rl <;> rw [hrl] at h
      · exact absurd h (by simp)
      · simp at h
        have := crlfIdx_le data i hc
        omega
  | parsingHeaders =>
    rw [parseSingle_parsingHeaders r data hst] at h
    cases hc : crlfIdx data with
    | none =>
      rw [headersParse_none r.headers data hc] at h
      simp at h
      omega
    | some i =>
      rcases hp : headersParse r.headers data with e | ⟨h₁, n₁, dne⟩ <;> rw [hp] at h
      · exact absurd h (by simp)
      · simp at h
        have h2 := headersParse_n r.headers data i h₁ n₁ dne hc hp
        have := crlfIdx_le data i hc
        omega
  | parsingBody =>
    rcases hcl : hdrGet? r.headers contentLengthKey with _ | clStr
    · rw [parseSingle_body_noCL r data hst hcl] at h
      simp at h
      omega
    · rcases ha : atoi? clStr with _ | cl
      · rw [parseSingle_body_badCL r data clStr hst hcl ha] at h
        exact absurd h (by simp)
      · rw [parseSingle_body_CL r data clStr cl hst hcl ha] at h
        split at h
        · exact absurd h (by simp)
        · split at h <;> simp at h <;> omega
  | done =>
    rw [parseSingle_done r data hst] at h
    exact absurd h (by simp)

theorem parseFuel_succ_done (fuel : Nat) (r : Request) (data : List Char)
    (hd : r.state = .done) : parseFuel (fuel + 1) r data = .ok (r, 0) := by
  simp only [parseFuel]
  rw [if_pos hd]

theorem parseFuel_succ_error (fuel : Nat) (r : Request) (data : List Char)
    (e : String) (hd : r.state ≠ .done) (hp : parseSingle r data = .error e) :
    parseFuel (fuel + 1) r data = .error e := by
  simp only [parseFuel]
  rw [if_neg hd, hp]

theorem parseFuel_succ_ok0 (fuel : Nat) (r : Request) (data : List Char)
    (r' : Request) (hd : r.state ≠ .done) (hp : parseSingle r data = .ok (r', 0)) :
    parseFuel (fuel + 1) r data = .ok (r', 0) := by
  simp only [parseFuel]
  rw [if_neg hd, hp]
  rfl

theorem parseFuel_succ_okpos (fuel : Nat) (r : Request) (data : List Char)
    (r' : Request) (n : Nat) (hd : r.state ≠ .done) (hn : n ≠ 0)
    (hp : parseSingle r data = .ok (r', n)) :
    parseFuel (fuel + 1) r data =
      (match parseFuel fuel r' (data.drop n) with
       | .error e => .error e
       | .ok (r'', m) => .ok (r'', n + m)) := by
  simp only [parseFuel]
  rw [if_neg hd, hp]
  show (if n = 0 then Except.ok (r', 0)
        else
          match parseFuel fuel r' (data.drop n) with
          | .error e => .error e
          | .ok (r'', m) => Except.ok (r'', n + m)) = _
  rw [if_neg hn]

/-- Any two sufficient fuels give the same result. -/
theorem parseFuel_congr (f₁ f₂ : Nat) (r : Request) (data : List Char)
    (h₁ : data.length < f₁) (h₂ : data.length < f₂) :
    parseFuel f₁ r data = parseFuel f₂ r data := by
  induction f₁ generalizing f₂ r data with
  | zero => omega
  | succ f₁ ih =>
    cases f₂ with
    | zero => omega
    | succ f₂ =>
      by_cases hd : r.state = .done
      · rw [parseFuel_succ_done f₁ r data hd, parseFuel_succ_done f₂ r data hd]
      · rcases hp : parseSingle r data with e | ⟨r', n⟩
        · rw [parseFuel_succ_error f₁ r data e hd hp,
              parseFuel_succ_error f₂ r data e hd hp]
        · by_cases hn : n = 0
          · subst hn
            rw [parseFuel_succ_ok0 f₁ r data r' hd hp,
                parseFuel_succ_ok0 f₂ r data r' hd hp]
          · rw [parseFuel_succ_okpos f₁ r data r' n hd hn hp,
                parseFuel_succ_okpos f₂ r data r' n hd hn hp]
            have hle := parseSingle_le r data r' n hp
            rw [ih f₂ r' (data.drop n) (by simp; omega) (by simp; omega)]

/-- `parse` in the `done` state: nothing to do. -/
theorem parse_done (r : Request) (data : List Char) (hd : r.state = .done) :
    parse r data = .ok (r, 0) :=
  parseFuel_succ_done data.length r data hd

/-- `parse` when the first step fails. -/
theorem parse_error (r : Request) (data : List Char) (e : String)
    (hd : r.state ≠ .done) (hp : parseSingle r data = .error e) :
    parse r data = .error e :=
  parseFuel_succ_error data.length r data e hd hp

/-- `parse` when the first step makes no byte progress: stop there. -/
theorem parse_ok0 (r : Request) (data : List Char) (r' : Request)
    (hd : r.state ≠ .done) (hp : parseSingle r data = .ok (r', 0)) :
    parse r data = .ok (r', 0) :=
  parseFuel_succ_ok0 data.length r data r' hd hp

/-- `parse` when the first step consumes `n > 0` bytes: recurse on the
remainder and add the counts. -/
theorem parse_okpos (r : Request) (data : List Char) (r' : Request) (n : Nat)
    (hd : r.state ≠ .done) (hn : n ≠ 0) (hp : parseSingle r data = .ok (r', n)) :
    parse r data =
      (match parse r' (data.drop n) with
       | .error e => .error e
       | .ok (r'', m) => .ok (r'', n + m)) := by
  have hle := parseSingle_le r data r' n hp
  show parseFuel (data.length + 1) r data = _
  rw [parseFuel_succ_okpos data.length r data r' n hd hn hp,
      parseFuel_congr data.length ((data.drop n).length + 1) r' (data.drop n)
        (by simp; omega) (by omega)]
  rfl

/-- Appending after a found CRLF does not change request-line parsing. -/
theorem parseRequestLine_append (d e : List Char) (i : Nat)
    (hc : crlfIdx d = some i) : parseRequestLine (d ++ e) = parseRequestLine d := by
  have hle := crlfIdx_le d i hc
  rw [parseRequestLine_some (d ++ e) i (crlfIdx_append_of_some d e i hc),
      parseRequestLine_some d i hc,
      List.take_append_of_le_length (show i ≤ d.length by omega)]

/-- Appending after a found CRLF does not change one header-line parse. -/
theorem headersParse_append (h : HeadersT) (d e : List Char) (i : Nat)
    (hc : crlfIdx d = some i) : headersParse h (d ++ e) = headersParse h d := by
  have hle := crlfIdx_le d i hc
  rw [headersParse_some h (d ++ e) i (crlfIdx_append_of_some d e i hc),
      headersParse_some h d i hc,
      List.take_append_of_le_length (show i ≤ d.length by omega)]

/-- In a line-consuming state, a parse step only looks at the part of the
buffer up to the first CRLF, so appending more data does not change it. -/
theorem parseSingle_line_append (r : Request) (d e : List Char) (i : Nat)
    (hc : crlfIdx d = some i)
    (hs : r.state = .initialized ∨ r.state = .parsingHeaders) :
    parseSingle r (d ++ e) = parseSingle r d := by
  rcases hs with hs | hs
  · rw [parseSingle_initialized r (d ++ e) hs, parseSingle_initialized r d hs,
        parseRequestLine_append d e i hc]
  · rw [parseSingle_parsingHeaders r (d ++ e) hs, parseSingle_parsingHeaders r d hs,
        headersParse_append r.headers d e i hc]

/-- In a line-consuming state with no CRLF in the buffer, a parse step makes
no progress and leaves the request unchanged. -/
theorem parseSingle_line_stuck (r : Request) (d : List Char)
    (hc : crlfIdx d = none)
    (hs : r.state = .initialized ∨ r.state = .parsingHeaders) :
    parseSingle r d = .ok (r, 0) := by
  rcases hs with hs | hs
  · rw [parseSingle_initialized r d hs, parseRequestLine_none d hc]
  · obtain ⟨rl₀, h₀, st, b₀⟩ := r
    have hs' : st = .parsingHeaders := hs
    subst hs'
    rw [parseSingle_parsingHeaders _ d rfl, headersParse_none _ d hc]
    rfl

/-- In a line-consuming state, a successful parse step on a buffer whose
first CRLF sits at index `i` consumes exactly `i + 2` bytes. -/
theorem parseSingle_line_n (r : Request) (d : List Char) (i : Nat)
    (r' : Request) (n : Nat) (hc : crlfIdx d = some i)
    (hs : r.state = .initialized ∨ r.state = .parsingHeaders)
    (h : parseSingle r d = .ok (r', n)) : n = i + 2 := by
  rcases hs with hs | hs
  · rw [parseSingle_initialized r d hs, parseRequestLine_some d i hc] at h
    rcases hrl : requestLineFromString (d.take i) with e | rl <;> rw [hrl] at h
    · exact absurd h (by simp)
    · simp at h
      omega
  · rw [parseSingle_parsingHeaders r d hs] at h
    rcases hp : headersParse r.headers d with e | ⟨h₁, n₁, dne⟩ <;> rw [hp] at h
    · exact absurd h (by simp)
    · simp at h
      have := headersParse_n r.headers d i h₁ n₁ dne hc hp
      omega

/-- A zero-progress `parseSingle` step either leaves the request unchanged or
has just finished (the no-content-length transition on an empty buffer). -/
theorem parseSingle_zero (r : Request) (data : List Char) (r₀ : Request)
    (h : parseSingle r data = .ok (r₀, 0)) : r₀ = r ∨ r₀.state = .done := by
  obtain ⟨rl₀, h₀, st, b₀⟩ := r
  cases st with
  | initialized =>
    cases hc : crlfIdx data with
    | none =>
      rw [parseSingle_line_stuck _ data hc (Or.inl rfl)] at h
      simp at h
      left
      exact h.symm
    | some i =>
      have := parseSingle_line_n _ data i r₀ 0 hc (Or.inl rfl) h
      omega
  | parsingHeaders =>
    cases hc : crlfIdx data with
    | none =>
      rw [parseSingle_line_stuck _ data hc (Or.inr rfl)] at h
      simp at h
      left
      exact h.symm
    | some i =>
      have := parseSingle_line_n _ data i r₀ 0 hc (Or.inr rfl) h
      omega
  | parsingBody =>
    rcases hcl : hdrGet? h₀ contentLengthKey with _ | clStr
    · rw [parseSingle_body_noCL _ data rfl hcl] at h
      simp at h
      right
      rw [← h.1]
    · rcases ha : atoi? clStr with _ | cl
      · rw [parseSingle_body_badCL _ data clStr rfl hcl ha] at h
        exact absurd h (by simp)
      · rw [parseSingle_body_CL _ data clStr cl rfl hcl ha] at h
        split at h
        · exact absurd h (by simp)
        · split at h
          · simp at h
            right
            rw [← h.1]
          · simp at h
            obtain ⟨hr, hlen⟩ := h
            left
            subst hlen
            rw [← hr]
            simp
  | done =>
    rw [parseSingle_done _ data rfl] at h
    exact absurd h (by simp)

/-- After a successful `parse`, either the request is complete or another
parse on the unconsumed remainder makes no progress (more data is needed). -/
theorem parse_stuck_aux : ∀ (k : Nat) (d : List Char), d.length ≤ k →
    ∀ (r r' : Request) (n : Nat), parse r d = .ok (r', n) →
    r'.state = .done ∨ parse r' (d.drop n) = .ok (r', 0) := by
  intro k
  induction k with
  | zero =>
    intro d hk r r' n h
    by_cases hd : r.state = .done
    · rw [parse_done r d hd] at h
      simp at h
      left
      rw [← h.1]
      exact hd
    · rcases hp : parseSingle r d with e | ⟨r₀, n₀⟩
      · rw [parse_error r d e hd hp] at h
        exact absurd h (by simp)
      · have hle := parseSingle_le r d r₀ n₀ hp
        have hn₀ : n₀ = 0 := by omega
        subst hn₀
        rw [parse_ok0 r d r₀ hd hp] at h
        simp at h
        obtain ⟨hr, hn⟩ := h
        subst hr
        rcases parseSingle_zero r d r₀ hp with hz | hz
        · right
          rw [← hn, List.drop_zero, hz]
          exact parse_ok0 r d r hd (hz ▸ hp)
        · left
          exact hz
  | succ k ih =>
    intro d hk r r' n h
    by_cases hd : r.state = .done
    · rw [parse_done r d hd] at h
      simp at h
      left
      rw [← h.1]
      exact hd
    · rcases hp : parseSingle r d with e | ⟨r₀, n₀⟩
      · rw [parse_error r d e hd hp] at h
        exact absurd h (by simp)
      · by_cases hn₀ : n₀ = 0
        · subst hn₀
          rw [parse_ok0 r d r₀ hd hp] at h
          simp at h
          obtain ⟨hr, hn⟩ := h
          subst hr
          rcases parseSingle_zero r d r₀ hp with hz | hz
          · right
            rw [← hn, List.drop_zero, hz]
            exact parse_ok0 r d r hd (hz ▸ hp)
          · left
            exact hz
        · rw [parse_okpos r d r₀ n₀ hd hn₀ hp] at h
          rcases hq : parse r₀ (d.drop n₀) with e | ⟨r₁, m⟩ <;> rw [hq] at h
          · exact absurd h (by simp)
          · simp at h
            obtain ⟨hr, hn⟩ := h
            subst hr
            have hle := parseSingle_le r d r₀ n₀ hp
            have hk' : (d.drop n₀).length ≤ k := by simp; omega
            rcases ih (d.drop n₀) hk' r₀ r₁ m hq with hz | hz
            · left
              exact hz
            · right
              rw [← hn]
              rw [List.drop_drop] at hz
              exact hz

/-- After a successful `parse`, either the request is complete or another
parse on the unconsumed remainder makes no progress. -/
theorem parse_stuck (r : Request) (d : List Char) (r' : Request) (n : Nat)
    (h : parse r d = .ok (r', n)) :
    r'.state = .done ∨ parse r' (d.drop n) = .ok (r', 0) :=
  parse_stuck_aux d.length d le_rfl r r' n h

/-- When the first step consumes the whole buffer and the result is finished
or quiescent, `parse` returns exactly that step's result. -/
theorem parse_consume_all (r : Request) (d : List Char) (r' : Request)
    (hd : r.state ≠ .done) (hp : parseSingle r d = .ok (r', d.length))
    (hq : r'.state = .done ∨ parseSingle r' [] = .ok (r', 0)) :
    parse r d = .ok (r', d.length) := by
  by_cases hl : d.length = 0
  · rw [hl] at hp ⊢
    exact parse_ok0 r d r' hd hp
  · rw [parse_okpos r d r' d.length hd hl hp, List.drop_length]
    by_cases hd' : r'.state = .done
    · rw [parse_done r' [] hd']
      simp
    · rcases hq with hq | hq
      · exact absurd hq hd'
      · rw [parse_ok0 r' [] r' hd' hq]
        simp

/-- A `parsingBody` step with a content-length header and enough room on an
empty buffer makes no progress. -/
theorem parseSingle_body_CL_empty (r : Request) (clStr : List Char) (cl : Int)
    (hs : r.state = .parsingBody)
    (hcl : hdrGet? r.headers contentLengthKey = some clStr)
    (ha : atoi? clStr = some cl) (hlt : (r.body.length : Int) < cl) :
    parseSingle r [] = .ok (r, 0) := by
  rw [parseSingle_body_CL r [] clStr cl hs hcl ha]
  rw [List.append_nil]
  rw [if_neg (by omega), if_neg (by omega)]
  obtain ⟨rl₀, h₀, st, b₀⟩ := r
  rfl

/-- `parse` in the `parsingBody` state without a content-length header:
consume everything and finish. -/
theorem parse_body_noCL (r : Request) (d : List Char)
    (hs : r.state = .parsingBody)
    (hcl : hdrGet? r.headers contentLengthKey = none) :
    parse r d = .ok ({ r with state := .done }, d.length) := by
  apply parse_consume_all r d _ (by rw [hs]; intro hcon; exact absurd hcon (by simp))
  · exact parseSingle_body_noCL r d hs hcl
  · left
    rfl

/-- `parse` in the `parsingBody` state with a numeric content-length and no
overflow: append everything, finishing exactly on a full body. -/
theorem parse_body_CL (r : Request) (d clStr : List Char) (cl : Int)
    (hs : r.state = .parsingBody)
    (hcl : hdrGet? r.headers contentLengthKey = some clStr)
    (ha : atoi? clStr = some cl)
    (hle : ((r.body ++ d).length : Int) ≤ cl) :
    parse r d =
      .ok ({ r with
             body := r.body ++ d,
             state := if ((r.body ++ d).length : Int) = cl then .done
                      else .parsingBody }, d.length) := by
  have hd : r.state ≠ .done := by rw [hs]; intro hcon; exact absurd hcon (by simp)
  apply parse_consume_all r d _ hd
  · rw [parseSingle_body_CL r d clStr cl hs hcl ha, if_neg (by omega)]
    by_cases he : ((r.body ++ d).length : Int) = cl
    · rw [if_pos he, if_pos he]
    · rw [if_neg he, if_neg he, hs]
  · by_cases he : ((r.body ++ d).length : Int) = cl
    · left
      rw [if_pos he]
    · right
      rw [if_neg he]
      exact parseSingle_body_CL_empty
        { r with body := r.body ++ d, state := .parsingBody } clStr cl rfl hcl ha
        (by simp only [List.length_append] at hle he ⊢; omega)

/-- `parse` in the `parsingBody` state with a numeric content-length and an
overflowing buffer fails. -/
theorem parse_body_CL_err (r : Request) (d clStr : List Char) (cl : Int)
    (hs : r.state = .parsingBody)
    (hcl : hdrGet? r.headers contentLengthKey = some clStr)
    (ha : atoi? clStr = some cl)
    (hgt : ((r.body ++ d).length : Int) > cl) :
    parse r d = .error "error: body length greater than Content-Length" := by
  have hd : r.state ≠ .done := by rw [hs]; intro hcon; exact absurd hcon (by simp)
  apply parse_error r d _ hd
  rw [parseSingle_body_CL r d clStr cl hs hcl ha, if_pos hgt]


/-- Decomposition of a successful parse of `d ++ e` into a parse of `d`
followed by a parse of the unconsumed remainder of `d` with `e` appended:
the split run reaches the same final request and the leftover bytes agree.
This is the heart of chunk-boundary invariance. -/
theorem parse_decomp_aux : ∀ (k : Nat) (d : List Char), d.length ≤ k →
    ∀ (e : List Char) (r rF : Request) (N : Nat),
    parse r (d ++ e) = .ok (rF, N) →
    ∃ n r₁, parse r d = .ok (r₁, n) ∧ n ≤ d.length ∧
      (r₁.state = .done → rF = r₁) ∧
      (r₁.state ≠ .done → ∃ m, parse r₁ (d.drop n ++ e) = .ok (rF, m) ∧
        (d.drop n ++ e).drop m = (d ++ e).drop N) := by
  intro k
  induction k using Nat.strong_induction_on with
  | _ k ih =>
  intro d hk e r rF N h
  obtain ⟨rl₀, h₀, st, b₀⟩ := r
  cases st with
  | done =>
    rw [parse_done _ (d ++ e) rfl] at h
    simp at h
    obtain ⟨hrF, hN⟩ := h
    refine ⟨0, _, parse_done ⟨rl₀, h₀, .done, b₀⟩ d rfl, Nat.zero_le _, ?_, ?_⟩
    · intro _
      exact hrF.symm
    · intro hcon
      exact absurd rfl hcon
  | initialized =>
    have hd : (⟨rl₀, h₀, .initialized, b₀⟩ : Request).state ≠ .done := fun hcon =>
      RequestState.noConfusion hcon
    cases hc : crlfIdx d with
    | none =>
      refine ⟨0, _, parse_ok0 ⟨rl₀, h₀, .initialized, b₀⟩ d _ hd
        (parseSingle_line_stuck ⟨rl₀, h₀, .initialized, b₀⟩ d hc (Or.inl rfl)),
        Nat.zero_le _, ?_, ?_⟩
      · intro hcon
        exact absurd hcon hd
      · intro _
        refine ⟨N, ?_, ?_⟩
        · rw [List.drop_zero]
          exact h
        · rw [List.drop_zero]
    | some i =>
      have hloc := parseSingle_line_append ⟨rl₀, h₀, .initialized, b₀⟩ d e i hc (Or.inl rfl)
      rcases hp : parseSingle (⟨rl₀, h₀, .initialized, b₀⟩ : Request) d with er | ⟨r₀, n₀⟩
      · rw [parse_error _ (d ++ e) er hd (hloc.trans hp)] at h
        exact absurd h (by simp)
      · have hn₀ := parseSingle_line_n ⟨rl₀, h₀, .initialized, b₀⟩ d i r₀ n₀ hc (Or.inl rfl) hp
        have hi := crlfIdx_le d i hc
        have hne : n₀ ≠ 0 := by omega
        rw [parse_okpos _ (d ++ e) r₀ n₀ hd hne (hloc.trans hp),
            List.drop_append_of_le_length (show n₀ ≤ d.length by omega)] at h
        rcases hq : parse r₀ (d.drop n₀ ++ e) with er | ⟨rM, M⟩ <;> rw [hq] at h
        · exact absurd h (by simp)
        · simp at h
          obtain ⟨hrM, hN⟩ := h
          obtain ⟨n₁, r₁, hs₁, hle₁, hdone₁, hcont₁⟩ :=
            ih (d.drop n₀).length (by simp; omega) (d.drop n₀) le_rfl e r₀ rM M hq
          refine ⟨n₀ + n₁, r₁, ?_, ?_, ?_, ?_⟩
          · rw [parse_okpos _ d r₀ n₀ hd hne hp, hs₁]
          · simp at hle₁
            omega
          · intro hdn
            exact hrM ▸ hdone₁ hdn
          · intro hdn
            obtain ⟨m, hm, hleft⟩ := hcont₁ hdn
            refine ⟨m, ?_, ?_⟩
            · rw [show d.drop (n₀ + n₁) = (d.drop n₀).drop n₁
                    from (List.drop_drop n₁ n₀ d).symm, ← hrM]
              exact hm
            · rw [show d.drop (n₀ + n₁) = (d.drop n₀).drop n₁
                    from (List.drop_drop n₁ n₀ d).symm,
                  hleft, ← hN, ← List.drop_drop,
                  List.drop_append_of_le_length (show n₀ ≤ d.length by omega)]
  | parsingHeaders =>
    have hd : (⟨rl₀, h₀, .parsingHeaders, b₀⟩ : Request).state ≠ .done := fun hcon =>
      RequestState.noConfusion hcon
    cases hc : crlfIdx d with
    | none =>
      refine ⟨0, _, parse_ok0 ⟨rl₀, h₀, .parsingHeaders, b₀⟩ d _ hd
        (parseSingle_line_stuck ⟨rl₀, h₀, .parsingHeaders, b₀⟩ d hc (Or.inr rfl)),
        Nat.zero_le _, ?_, ?_⟩
      · intro hcon
        exact absurd hcon hd
      · intro _
        refine ⟨N, ?_, ?_⟩
        · rw [List.drop_zero]
          exact h
        · rw [List.drop_zero]
    | some i =>
      have hloc := parseSingle_line_append ⟨rl₀, h₀, .parsingHeaders, b₀⟩ d e i hc (Or.inr rfl)
      rcases hp : parseSingle (⟨rl₀, h₀, .parsingHeaders, b₀⟩ : Request) d with er | ⟨r₀, n₀⟩
      · rw [parse_error _ (d ++ e) er hd (hloc.trans hp)] at h
        exact absurd h (by simp)
      · have hn₀ := parseSingle_line_n ⟨rl₀, h₀, .parsingHeaders, b₀⟩ d i r₀ n₀ hc (Or.inr rfl) hp
        have hi := crlfIdx_le d i hc
        have hne : n₀ ≠ 0 := by omega
        rw [parse_okpos _ (d ++ e) r₀ n₀ hd hne (hloc.trans hp),
            List.drop_append_of_le_length (show n₀ ≤ d.length by omega)] at h
        rcases hq : parse r₀ (d.drop n₀ ++ e) with er | ⟨rM, M⟩ <;> rw [hq] at h
        · exact absurd h (by simp)
        · simp at h
          obtain ⟨hrM, hN⟩ := h
          obtain ⟨n₁, r₁, hs₁, hle₁, hdone₁, hcont₁⟩ :=
            ih (d.drop n₀).length (by simp; omega) (d.drop n₀) le_rfl e r₀ rM M hq
          refine ⟨n₀ + n₁, r₁, ?_, ?_, ?_, ?_⟩
          · rw [parse_okpos _ d r₀ n₀ hd hne hp, hs₁]
          · simp at hle₁
            omega
          · intro hdn
            exact hrM ▸ hdone₁ hdn
          · intro hdn
            obtain ⟨m, hm, hleft⟩ := hcont₁ hdn
            refine ⟨m, ?_, ?_⟩
            · rw [show d.drop (n₀ + n₁) = (d.drop n₀).drop n₁
                    from (List.drop_drop n₁ n₀ d).symm, ← hrM]
              exact hm
            · rw [show d.drop (n₀ + n₁) = (d.drop n₀).drop n₁
                    from (List.drop_drop n₁ n₀ d).symm,
                  hleft, ← hN, ← List.drop_drop,
                  List.drop_append_of_le_length (show n₀ ≤ d.length by omega)]
  | parsingBody =>
    have hd : (⟨rl₀, h₀, .parsingBody, b₀⟩ : Request).state ≠ .done := fun hcon =>
      RequestState.noConfusion hcon
    rcases hcl : hdrGet? h₀ contentLengthKey with _ | clStr
    · rw [parse_body_noCL _ (d ++ e) rfl hcl] at h
      simp at h
      obtain ⟨hrF, hN⟩ := h
      refine ⟨d.length, _, parse_body_noCL ⟨rl₀, h₀, .parsingBody, b₀⟩ d rfl hcl,
        le_rfl, ?_, ?_⟩
      · intro _
        exact hrF.symm
      · intro hcon
        exact absurd rfl hcon
    · rcases ha : atoi? clStr with _ | cl
      · rw [parse_error _ (d ++ e) _ hd
            (parseSingle_body_badCL _ (d ++ e) clStr rfl hcl ha)] at h
        exact absurd h (by simp)
      · by_cases hgt : ((b₀ ++ (d ++ e)).length : Int) > cl
        · rw [parse_body_CL_err _ (d ++ e) clStr cl rfl hcl ha hgt] at h
          exact absurd h (by simp)
        · have hleC : ((b₀ ++ (d ++ e)).length : Int) ≤ cl := by omega
          rw [parse_body_CL _ (d ++ e) clStr cl rfl hcl ha hleC] at h
          simp at h
          obtain ⟨hrF, hN⟩ := h
          have hleD : ((b₀ ++ d).length : Int) ≤ cl := by
            simp only [List.length_append] at hleC ⊢
            push_cast at hleC ⊢
            omega
          have hsplit := parse_body_CL ⟨rl₀, h₀, .parsingBody, b₀⟩ d clStr cl rfl hcl ha hleD
          by_cases heD : ((b₀ ++ d).length : Int) = cl
          · rw [if_pos heD] at hsplit
            have he0 : e = [] := by
              have hlen : e.length = 0 := by
                simp only [List.length_append] at hleC heD
                push_cast at hleC heD
                omega
              exact List.length_eq_zero.mp hlen
            subst he0
            refine ⟨d.length, _, hsplit, le_rfl, ?_, ?_⟩
            · intro _
              rw [← hrF]
              have heD' : ((b₀.length : Int) + (d.length : Int)) = cl := by
                simp only [List.length_append] at heD
                push_cast at heD
                exact heD
              simp [heD']
            · intro hcon
              exact absurd rfl hcon
          · rw [if_neg heD] at hsplit
            refine ⟨d.length, _, hsplit, le_rfl, ?_, ?_⟩
            · intro hcon
              exact absurd hcon (fun x => RequestState.noConfusion x)
            · intro _
              refine ⟨e.length, ?_, ?_⟩
              · rw [List.drop_length, List.nil_append]
                have hstep := parse_body_CL ⟨rl₀, h₀, .parsingBody, b₀ ++ d⟩ e clStr cl
                  rfl hcl ha
                  (by
                    simp only [List.length_append] at hleC ⊢
                    push_cast at hleC ⊢
                    omega)
                rw [hstep, ← hrF]
                simp [List.append_assoc]
              · rw [List.drop_length, List.nil_append, ← hN, List.drop_length,
                    show d.length + e.length = (d ++ e).length
                      from (List.length_append d e).symm,
                    List.drop_length]

theorem feedChunks_nil (r : Request) (rest : List Char) :
    feedChunks r rest [] =
      if r.state = .done then .ok r else .error "incomplete request" := rfl

theorem feedChunks_cons_done (r : Request) (rest c : List Char)
    (cs : List (List Char)) (hd : r.state = .done) :
    feedChunks r rest (c :: cs) = .ok r := by
  simp only [feedChunks]
  rw [if_pos hd]

theorem feedChunks_cons_error (r : Request) (rest c : List Char)
    (cs : List (List Char)) (e : String) (hd : r.state ≠ .done)
    (hp : parse r (rest ++ c) = .error e) :
    feedChunks r rest (c :: cs) = .error e := by
  simp only [feedChunks]
  rw [if_neg hd, hp]

theorem feedChunks_cons_ok (r : Request) (rest c : List Char)
    (cs : List (List Char)) (r' : Request) (n : Nat) (hd : r.state ≠ .done)
    (hp : parse r (rest ++ c) = .ok (r', n)) :
    feedChunks r rest (c :: cs) = feedChunks r' ((rest ++ c).drop n) cs := by
  simp only [feedChunks]
  rw [if_neg hd, hp]

/-- Refinement of chunking: whenever feeding the whole remaining stream as a
single fragment succeeds, feeding it as the given list of fragments succeeds
with the same final request — provided the parser is currently quiescent on
the retained buffer (as it always is between reads). -/
theorem feedChunks_refine : ∀ (cs : List (List Char)) (r : Request)
    (rest : List Char) (q : Request),
    (r.state = .done ∨ parse r rest = .ok (r, 0)) →
    feedChunks r rest [cs.flatten] = .ok q → feedChunks r rest cs = .ok q := by
  intro cs
  induction cs with
  | nil =>
    intro r rest q hquiet h
    rw [show (([] : List (List Char)).flatten : List Char) = [] from rfl] at h
    by_cases hd : r.state = .done
    · rw [feedChunks_cons_done r rest _ [] hd] at h
      rw [feedChunks_nil, if_pos hd]
      exact h
    · rcases hquiet with hq | hq
      · exact absurd hq hd
      · rw [feedChunks_cons_ok r rest ([] : List Char) [] r 0 hd
            (by rw [List.append_nil]; exact hq)] at h
        rw [List.append_nil, List.drop_zero] at h
        exact h
  | cons c cs' ih =>
    intro r rest q hquiet h
    by_cases hd : r.state = .done
    · rw [feedChunks_cons_done r rest _ cs' hd]
      rw [feedChunks_cons_done r rest _ [] hd] at h
      exact h
    · rw [show (((c :: cs').flatten) : List Char) = c ++ cs'.flatten from rfl] at h
      rcases hcomb : parse r (rest ++ (c ++ cs'.flatten)) with e | ⟨rC, N⟩
      · rw [feedChunks_cons_error r rest (c ++ cs'.flatten) [] e hd hcomb] at h
        exact absurd h (by simp)
      · rw [show rest ++ (c ++ cs'.flatten) = (rest ++ c) ++ cs'.flatten
              from (List.append_assoc rest c cs'.flatten).symm] at hcomb
        obtain ⟨n, r₁, hs₁, hle₁, hdone₁, hcont₁⟩ :=
          parse_decomp_aux (rest ++ c).length (rest ++ c) le_rfl cs'.flatten r rC N hcomb
        rw [feedChunks_cons_ok r rest (c ++ cs'.flatten) [] rC N hd
            (by rw [← List.append_assoc]; exact hcomb)] at h
        rw [feedChunks_nil] at h
        by_cases hdC : rC.state = .done
        · rw [if_pos hdC] at h
          simp at h
          rw [feedChunks_cons_ok r rest c cs' r₁ n hd hs₁]
          by_cases hd₁ : r₁.state = .done
          · have hq₁ : r₁ = q := (hdone₁ hd₁).symm.trans h
            cases cs' with
            | nil =>
              rw [feedChunks_nil, if_pos hd₁, hq₁]
            | cons c₂ cs₂ =>
              rw [feedChunks_cons_done _ _ _ _ hd₁, hq₁]
          · obtain ⟨m, hm, hleft⟩ := hcont₁ hd₁
            apply ih r₁ ((rest ++ c).drop n) q
            · right
              rcases parse_stuck r (rest ++ c) r₁ n hs₁ with hz | hz
              · exact absurd hz hd₁
              · exact hz
            · rw [feedChunks_cons_ok r₁ ((rest ++ c).drop n) cs'.flatten [] rC m hd₁ hm,
                  feedChunks_nil, if_pos hdC, h]
        · rw [if_neg hdC] at h
          exact absurd h (by simp)

/-- One parse step never moves the state backward. -/
theorem parseSingle_mono (r : Request) (data : List Char) (r' : Request) (n : Nat)
    (h : parseSingle r data = .ok (r', n)) : r.state.idx ≤ r'.state.idx := by
  obtain ⟨rl₀, h₀, st, b₀⟩ := r
  cases st with
  | initialized => exact Nat.zero_le _
  | parsingHeaders =>
    rw [parseSingle_parsingHeaders _ data rfl] at h
    rcases hp : headersParse h₀ data with e | ⟨h₁, n₁, dne⟩ <;> rw [hp] at h
    · exact absurd h (by simp)
    · simp at h
      obtain ⟨hr, -⟩ := h
      rw [← hr]
      cases dne <;> simp [RequestState.idx]
  | parsingBody =>
    rcases hcl : hdrGet? h₀ contentLengthKey with _ | clStr
    · rw [parseSingle_body_noCL _ data rfl hcl] at h
      simp at h
      rw [← h.1]
      simp [RequestState.idx]
    · rcases ha : atoi? clStr with _ | cl
      · rw [parseSingle_body_badCL _ data clStr rfl hcl ha] at h
        exact absurd h (by simp)
      · rw [parseSingle_body_CL _ data clStr cl rfl hcl ha] at h
        split at h
        · exact absurd h (by simp)
        · split at h <;> simp at h <;> rw [← h.1] <;> simp [RequestState.idx]
  | done =>
    rw [parseSingle_done _ data rfl] at h
    exact absurd h (by simp)

/-- A full parse pass never moves the state backward. -/
theorem parseFuel_mono (fuel : Nat) (r : Request) (data : List Char)
    (r' : Request) (n : Nat) (h : parseFuel fuel r data = .ok (r', n)) :
    r.state.idx ≤ r'.state.idx := by
  induction fuel generalizing r data r' n with
  | zero =>
    simp [parseFuel] at h
    rw [← h.1]
  | succ fuel ih =>
    by_cases hd : r.state = .done
    · rw [parseFuel_succ_done fuel r data hd] at h
      simp at h
      rw [← h.1]
    · rcases hp : parseSingle r data with e | ⟨r₀, n₀⟩
      · rw [parseFuel_succ_error fuel r data e hd hp] at h
        exact absurd h (by simp)
      · by_cases hn : n₀ = 0
        · subst hn
          rw [parseFuel_succ_ok0 fuel r data r₀ hd hp] at h
          simp at h
          rw [← h.1]
          exact parseSingle_mono r data r₀ 0 hp
        · rw [parseFuel_succ_okpos fuel r data r₀ n₀ hd hn hp] at h
          rcases hq : parseFuel fuel r₀ (data.drop n₀) with e | ⟨r₁, m⟩ <;> rw [hq] at h
          · exact absurd h (by simp)
          · simp at h
            rw [← h.1]
            exact le_trans (parseSingle_mono r data r₀ n₀ hp)
              (ih r₀ (data.drop n₀) r₁ m hq)

theorem requestLineFromString_three (str m t third : List Char)
    (hsp : splitChar ' ' str = [m, t, third]) :
    requestLineFromString str =
      (if m.all isUpperAZ then
        match splitChar '/' third with
        | [httpPart, version] =>
          if httpPart = ("HTTP").data then
            if version = ("1.1").data then
              .ok { httpVersion := version, requestTarget := t, method := m }
            else .error "unrecognized HTTP-version"
          else .error "unrecognized HTTP-version"
        | _ => .error "malformed start-line"
      else .error "invalid method") := by
  simp only [requestLineFromString]
  rw [hsp]

theorem requestLineFromString_err_shape (str : List Char)
    (hlen : (splitChar ' ' str).length ≠ 3) :
    requestLineFromString str = .error "poorly formatted request-line" := by
  rcases hsp : splitChar ' ' str with _ | ⟨a, _ | ⟨b, _ | ⟨c, _ | ⟨d, rest⟩⟩⟩⟩
  · simp only [requestLineFromString]
    rw [hsp]
  · simp only [requestLineFromString]
    rw [hsp]
  · simp only [requestLineFromString]
    rw [hsp]
  · exact absurd (by rw [hsp]; rfl) hlen
  · simp only [requestLineFromString]
    rw [hsp]

/-! ## Claim theorems -/

/-- Claim C3: for every valid complete request byte sequence — one on which
the parser, fed the whole sequence as a single fragment, yields a parsed
request — feeding the same bytes split into fragments at any positions
(one byte at a time, eight bytes at a time, or any other split) yields the
identical parsed Request: same request line, same headers, same body, final
state `done`. -/
theorem claim_C3_chunk_invariance (s : List Char) (req : Request)
    (h : feedChunks initialRequest [] [s] = .ok req)
    (cs : List (List Char)) (hj : cs.flatten = s) :
    feedChunks initialRequest [] cs = .ok req := by
  apply feedChunks_refine cs initialRequest [] req
  · right
    rfl
  · rw [hj]
    exact h

/-- Witness for claim C3 at a concrete request split into fragments. -/
theorem claim_C3_witness :
    feedChunks initialRequest []
      [("GET / HTT").data, ("P/1.1\r\n\r").data, ("\n").data] =
      .ok { requestLine := { httpVersion := ("1.1").data,
                             requestTarget := ("/").data,
                             method := ("GET").data },
            headers := [], state := .done, body := [] } :=
  claim_C3_chunk_invariance (("GET / HTTP/1.1\r\n\r\n").data) _ (by rfl) _ (by rfl)

/-- Claim C8: the request parser's state only moves forward through
`initialized → parsingHeaders → parsingBody → done`: neither a single parse
step nor a full parse pass moves the state backward, and any parse step
attempted in the `done` state returns an error. -/
theorem claim_C8_forward_only (r : Request) (data : List Char) :
    (∀ r' n, parseSingle r data = .ok (r', n) → r.state.idx ≤ r'.state.idx) ∧
    (∀ r' n, parse r data = .ok (r', n) → r.state.idx ≤ r'.state.idx) ∧
    (r.state = .done →
      parseSingle r data = .error "error: trying to read data in a done state") :=
  ⟨fun r' n h => parseSingle_mono r data r' n h,
   fun r' n h => parseFuel_mono (data.length + 1) r data r' n h,
   fun hd => parseSingle_done r data hd⟩

/-- Witness for claim C8 at concrete requests. -/
theorem claim_C8_witness :
    initialRequest.state.idx ≤ initialRequest.state.idx ∧
    parseSingle { initialRequest with state := .done } (("x").data) =
      .error "error: trying to read data in a done state" :=
  ⟨(claim_C8_forward_only initialRequest []).1 initialRequest 0 (by rfl),
   (claim_C8_forward_only { initialRequest with state := .done } (("x").data)).2.2 rfl⟩

/-- Claim C5: in the `parsingBody` state with a declared numeric
content-length, a parse step appends all available bytes to the body and
reports them all consumed; it fails with an error exactly when the
accumulated body length exceeds the declared content-length, and transitions
to `done` exactly when the body length equals it. -/
theorem claim_C5_body_accounting (r : Request) (data clStr : List Char) (cl : Int)
    (hs : r.state = .parsingBody)
    (hcl : hdrGet? r.headers contentLengthKey = some clStr)
    (ha : atoi? clStr = some cl) :
    (((r.body ++ data).length : Int) > cl →
      parseSingle r data = .error "error: body length greater than Content-Length") ∧
    (((r.body ++ data).length : Int) ≤ cl →
      parseSingle r data =
        .ok ({ r with
               body := r.body ++ data,
               state := if ((r.body ++ data).length : Int) = cl then .done
                        else .parsingBody }, data.length)) := by
  constructor
  · intro hgt
    rw [parseSingle_body_CL r data clStr cl hs hcl ha, if_pos hgt]
  · intro hle
    rw [parseSingle_body_CL r data clStr cl hs hcl ha, if_neg (by omega)]
    by_cases he : ((r.body ++ data).length : Int) = cl
    · rw [if_pos he, if_pos he]
    · rw [if_neg he, if_neg he, hs]

/-- Witness for claim C5 at a concrete request with content-length 5. -/
theorem claim_C5_witness :
    parseSingle
      { requestLine := { httpVersion := ("1.1").data, requestTarget := ("/").data,
                         method := ("POST").data },
        headers := [((("content-length").data), (("5").data))],
        state := .parsingBody, body := ("he").data }
      (("llo").data) =
    .ok ({ requestLine := { httpVersion := ("1.1").data, requestTarget := ("/").data,
                            method := ("POST").data },
           headers := [((("content-length").data), (("5").data))],
           state := .done, body := ("hello").data }, 3) :=
  (claim_C5_body_accounting
    { requestLine := { httpVersion := ("1.1").data, requestTarget := ("/").data,
                       method := ("POST").data },
      headers := [((("content-length").data), (("5").data))],
      state := .parsingBody, body := ("he").data }
    (("llo").data) (("5").data) 5 rfl rfl rfl).2 (by decide)

/-- Claim C2: `Server.Close` is idempotent — on a running server the first
call sets the closed flag and closes the listening socket, returning
success, and any call on an already-closed server is a no-op returning
success. -/
theorem claim_C2_close_idempotent (s : Server) :
    (s.closed = false → s.listenerClosed = false →
      Server.Close s = ({ closed := true, listenerClosed := true }, none)) ∧
    (s.closed = true → Server.Close s = (s, none)) := by
  obtain ⟨c, l⟩ := s
  constructor
  · intro hc hl
    subst hc
    subst hl
    rfl
  · intro hc
    subst hc
    rfl

/-- Witness for claim C2: closing a fresh server and then closing again. -/
theorem claim_C2_witness :
    Server.Close { closed := false, listenerClosed := false } =
      ({ closed := true, listenerClosed := true }, none) ∧
    Server.Close { closed := true, listenerClosed := true } =
      ({ closed := true, listenerClosed := true }, none) :=
  ⟨(claim_C2_close_idempotent { closed := false, listenerClosed := false }).1 rfl rfl,
   (claim_C2_close_idempotent { closed := true, listenerClosed := true }).2 rfl⟩

/-- Claim C1: on a writer in the body state, `WriteChunkedBodyDone` (in the
trailers-state writer variant the spec adopts) writes exactly the bytes
`"0\r\n"` to the sink and advances the writer to the trailers state; any
further body write — chunked or fixed — on the resulting writer fails with a
sequencing error. -/
theorem claim_C1_chunked_done (w : ResponseTrailers.Writer)
    (h : w.writerState = .body) :
    ResponseTrailers.Writer.WriteChunkedBodyDone w =
      .ok ({ writerState := .trailers, out := w.out ++ ("0\r\n").data }, 3) ∧
    (∀ p, ∃ e, ResponseTrailers.Writer.WriteChunkedBody
        { writerState := .trailers, out := w.out ++ ("0\r\n").data } p = .error e) ∧
    (∀ p, ∃ e, ResponseTrailers.Writer.WriteBody
        { writerState := .trailers, out := w.out ++ ("0\r\n").data } p = .error e) := by
  obtain ⟨st, out⟩ := w
  have h' : st = .body := h
  subst h'
  exact ⟨rfl, fun p => ⟨_, rfl⟩, fun p => ⟨_, rfl⟩⟩

/-- Witness for claim C1 on a fresh body-state writer. -/
theorem claim_C1_witness :
    ResponseTrailers.Writer.WriteChunkedBodyDone
      { writerState := .body, out := [] } =
      .ok ({ writerState := .trailers, out := ("0\r\n").data }, 3) ∧
    (∀ p, ∃ e, ResponseTrailers.Writer.WriteChunkedBody
        { writerState := .trailers, out := ("0\r\n").data } p = .error e) ∧
    (∀ p, ∃ e, ResponseTrailers.Writer.WriteBody
        { writerState := .trailers, out := ("0\r\n").data } p = .error e) :=
  claim_C1_chunked_done { writerState := .body, out := [] } rfl

/-- Claim C6: a fixed-length body may be written at most once — in the
trailers-state writer variant, a successful `WriteBody` advances the writer
past the body state, so a second `WriteBody` on the same writer fails with a
sequencing error instead of writing the bytes again. -/
theorem claim_C6_single_writeBody (w : ResponseTrailers.Writer) (p : List Char)
    (h : w.writerState = .body) :
    ResponseTrailers.Writer.WriteBody w p =
      .ok ({ writerState := .trailers, out := w.out ++ p }, p.length) ∧
    (∀ q, ∃ e, ResponseTrailers.Writer.WriteBody
        { writerState := .trailers, out := w.out ++ p } q = .error e) := by
  obtain ⟨st, out⟩ := w
  have h' : st = .body := h
  subst h'
  exact ⟨rfl, fun q => ⟨_, rfl⟩⟩

/-- Witness for claim C6 on a fresh body-state writer. -/
theorem claim_C6_witness :
    ResponseTrailers.Writer.WriteBody { writerState := .body, out := [] }
      (("body").data) =
      .ok ({ writerState := .trailers, out := ("body").data }, 4) ∧
    (∀ q, ∃ e, ResponseTrailers.Writer.WriteBody
        { writerState := .trailers, out := ("body").data } q = .error e) :=
  claim_C6_single_writeBody { writerState := .body, out := [] } (("body").data) rfl

/-- Claim C7: the sequence `WriteStatusLine 200`, `WriteHeaders` of the
single-entry table `content-length: 4`, `WriteBody "body"` emits exactly
`"HTTP/1.1 200 OK\r\ncontent-length: 4\r\n\r\nbody"` on the sink, and
calling `WriteHeaders` before `WriteStatusLine` fails with a sequencing
error. -/
theorem claim_C7_fixed_sequence :
    (∃ e, ResponsePlain.Writer.WriteHeaders ResponsePlain.NewWriter
        [((("content-length").data), (("4").data))] = .error e) ∧
    ∃ w1 w2 w3,
      ResponsePlain.Writer.WriteStatusLine ResponsePlain.NewWriter 200 = .ok w1 ∧
      ResponsePlain.Writer.WriteHeaders w1
        [((("content-length").data), (("4").data))] = .ok w2 ∧
      ResponsePlain.Writer.WriteBody w2 (("body").data) = .ok (w3, 4) ∧
      w3.out = ("HTTP/1.1 200 OK\r\ncontent-length: 4\r\n\r\nbody").data := by
  refine ⟨⟨_, rfl⟩, _, _, _, rfl, rfl, rfl, ?_⟩
  rfl

/-- Counterexample to claim C4 as stated: the request line `" / HTTP/1.1"`
has an empty method token, yet `requestLineFromString` accepts it — the
per-character uppercase loop is vacuously satisfied by an empty method. -/
theorem claim_C4_counterexample :
    requestLineFromString ((" / HTTP/1.1").data) =
      .ok { httpVersion := ("1.1").data, requestTarget := ("/").data,
            method := [] } := by
  rfl

/-- Claim C4 (amended): request-line parsing succeeds exactly when the line
splits on single spaces into exactly 3 tokens, every character of the method
token is an uppercase ASCII letter (the method may be empty), and the third
token is literally `"HTTP/1.1"`; every line violating one of these
conditions is rejected with an error. -/
theorem claim_C4_amended_request_line (str : List Char) :
    (∃ rl, requestLineFromString str = .ok rl) ↔
      ((splitChar ' ' str).length = 3 ∧
       ((splitChar ' ' str).headD []).all isUpperAZ = true ∧
       (splitChar ' ' str).getD 2 [] = ("HTTP/1.1").data) := by
  constructor
  · rintro ⟨rl, hrl⟩
    rcases hsp : splitChar ' ' str with _ | ⟨m, _ | ⟨t, _ | ⟨third, _ | ⟨d, rest⟩⟩⟩⟩
    · exact absurd hsp (splitChar_ne_nil ' ' str)
    · rw [requestLineFromString_err_shape str (by rw [hsp]; simp)] at hrl
      exact absurd hrl (by simp)
    · rw [requestLineFromString_err_shape str (by rw [hsp]; simp)] at hrl
      exact absurd hrl (by simp)
    · rw [requestLineFromString_three str m t third hsp] at hrl
      by_cases hup : m.all isUpperAZ = true
      · rw [if_pos hup] at hrl
        rcases hsp2 : splitChar '/' third with _ | ⟨hp, _ | ⟨ver, _ | ⟨x, xs⟩⟩⟩ <;>
          rw [hsp2] at hrl
        · exact absurd hrl (by simp)
        · exact absurd hrl (by simp)
        · have hrl' :
              (if hp = ("HTTP").data then
                if ver = ("1.1").data then
                  Except.ok { httpVersion := ver, requestTarget := t, method := m }
                else Except.error "unrecognized HTTP-version"
              else Except.error "unrecognized HTTP-version") = Except.ok rl := hrl
          by_cases hhp : hp = ("HTTP").data
          · rw [if_pos hhp] at hrl'
            by_cases hver : ver = ("1.1").data
            · have hthird : third = ("HTTP/1.1").data := by
                have hj := joinSep_splitChar '/' third
                rw [hsp2] at hj
                rw [← hj, hhp, hver]
                rfl
              exact ⟨rfl, hup, hthird⟩
            · rw [if_neg hver] at hrl'
              exact absurd hrl' (by simp)
          · rw [if_neg hhp] at hrl'
            exact absurd hrl' (by simp)
        · exact absurd hrl (by simp)
      · rw [if_neg hup] at hrl
        exact absurd hrl (by simp)
    · rw [requestLineFromString_err_shape str (by rw [hsp]; simp)] at hrl
      exact absurd hrl (by simp)
  · rintro ⟨hlen, hup, hthird⟩
    rcases hsp : splitChar ' ' str with _ | ⟨m, _ | ⟨t, _ | ⟨third, _ | ⟨d, rest⟩⟩⟩⟩
    · exact absurd hsp (splitChar_ne_nil ' ' str)
    · rw [hsp] at hlen
      simp at hlen
    · rw [hsp] at hlen
      simp at hlen
    · rw [hsp] at hup hthird
      have hup' : m.all isUpperAZ = true := hup
      have hthird' : third = ("HTTP/1.1").data := hthird
      subst hthird'
      rw [requestLineFromString_three str m t (("HTTP/1.1").data) hsp, if_pos hup',
          show splitChar '/' (("HTTP/1.1").data) =
            [("HTTP").data, ("1.1").data] from rfl]
      exact ⟨_, rfl⟩
    · rw [hsp] at hlen
      simp at hlen

/-- Witness for the amended claim C4 at a concrete valid request line. -/
theorem claim_C4_witness :
    ∃ rl, requestLineFromString (("GET / HTTP/1.1").data) = .ok rl :=
  (claim_C4_amended_request_line (("GET / HTTP/1.1").data)).mpr (by decide)

/-- Claim C9: header names are normalized to lowercase on insertion and
repeated insertion folds values as `existing ++ ", " ++ new` instead of
overwriting; in particular parsing `"Set-Cookie: a\r\nSet-Cookie: b\r\n\r\n"`
yields the single entry `set-cookie = "a, b"` after consuming all 32
bytes. -/
theorem claim_C9_header_folding :
    (∀ k v : List Char, hdrGet? (headersSet [] k v) (k.map lowerChar) = some v) ∧
    (∀ (h : HeadersT) (k v old : List Char),
      hdrGet? h (k.map lowerChar) = some old →
      hdrGet? (headersSet h k v) (k.map lowerChar) =
        some (old ++ (", ").data ++ v)) ∧
    headersParseAll [] (("Set-Cookie: a\r\nSet-Cookie: b\r\n\r\n").data) =
      .ok ([((("set-cookie").data), (("a, b").data))], 32) := by
  refine ⟨?_, ?_, by rfl⟩
  · intro k v
    simp [headersSet, hdrSetRaw, hdrGet?]
  · intro h k v old hold
    rw [headersSet, hdrSetRaw_get, hold]

/-- Witness for claim C9: folding `b` onto an existing `set-cookie: a`. -/
theorem claim_C9_witness :
    hdrGet? (headersSet [((("set-cookie").data), (("a").data))]
        (("Set-Cookie").data) (("b").data))
      ((("Set-Cookie").data).map lowerChar) =
      some ((("a").data) ++ ((", ").data) ++ (("b").data)) :=
  claim_C9_header_folding.2.1 [((("set-cookie").data), (("a").data))]
    (("Set-Cookie").data) (("b").data) (("a").data) (by rfl)

/-- Claim C10: `headersParse` accepts a header line whose name is empty —
for a line beginning with a colon whose remainder contains no CRLF and no
`" :"` sequence, parsing succeeds (no validation error, since the token
check uses a `*`-quantified character class) and stores the trimmed value
under the empty-string key. -/
theorem claim_C10_empty_header_name (v : List Char) (h : HeadersT)
    (hnc : crlfIdx (':' :: v) = none)
    (hsc : containsSpaceColon (':' :: v) = false) :
    headersParse h ((':' :: v) ++ ("\r\n").data) =
      .ok (hdrSetRaw h [] (trimSpace v), v.length + 3, false) := by
  have hc : crlfIdx ((':' :: v) ++ ("\r\n").data) = some (v.length + 1) := by
    have hx := crlfIdx_append_crlf (':' :: v) [] hnc
    simpa using hx
  rw [headersParse_some h _ (v.length + 1) hc]
  rw [if_neg (by omega)]
  rw [show ((':' :: v) ++ ("\r\n").data).take (v.length + 1) = ':' :: v from by
        rw [List.take_append_of_le_length (by simp)]
        simp]
  rw [if_neg (by simp [hsc])]
  rw [show splitFirstColon (':' :: v) = some ([], v) from rfl]
  rfl

/-- Witness for claim C10 at the line `": value\r\n"`. -/
theorem claim_C10_witness :
    headersParse [] ((':' :: ((" value").data)) ++ ("\r\n").data) =
      .ok (hdrSetRaw [] [] (trimSpace ((" value").data)),
           ((" value").data).length + 3, false) :=
  claim_C10_empty_header_name ((" value").data) [] (by rfl) (by rfl)
